import Mathlib

/-!
# Verification of the kube-metrics-adapter metric store and collectors

A shallow embedding of `pkg/provider/metric_store.go` and of the collector
sources (ZMON check collector, Skipper ingress collector) of the
kube-metrics-adapter repository, together with theorems about the store's
insert/lookup/expiry operations and the collectors' aggregation behaviour.

Modelling conventions:
* Go maps are modelled as association lists (`List (K × V)`); iteration order
  of a Go map is unspecified, the list order stands for one admissible order.
* `time.Time` values are modelled as `Int` (seconds); `15 * time.Minute`
  becomes `15 * 60`.
* `resource.Quantity` is modelled as `Int` holding the milli-unit value
  (`MilliValue` is the identity, `NewMilliQuantity` is the identity).
* A Go runtime panic (assignment to an entry in a nil map) is modelled by the
  inserting function returning `none`.
-/

namespace KubeMetricsAdapter

/-! ## Association-list maps (model of Go maps) -/

/-- Lookup in an association list: the value at the first occurrence of `k`. -/
def lmLookup {K V : Type} [DecidableEq K] (k : K) : List (K × V) → Option V
  | [] => none
  | (k₀, v) :: rest => if k₀ = k then some v else lmLookup k rest

/-- Remove every binding of key `k`. -/
def lmEraseAll {K V : Type} [DecidableEq K] (k : K) : List (K × V) → List (K × V)
  | [] => []
  | p :: rest => if p.1 = k then lmEraseAll k rest else p :: lmEraseAll k rest

/-- Map update `m[k] = v`: removes any binding of `k`, appends the new one. -/
def lmInsert {K V : Type} [DecidableEq K] (k : K) (v : V) (m : List (K × V)) :
    List (K × V) :=
  lmEraseAll k m ++ [(k, v)]

/-- All values bound to `k`, in order (used to count entries per key). -/
def lmEntries {K V : Type} [DecidableEq K] (k : K) : List (K × V) → List V
  | [] => []
  | p :: rest => if p.1 = k then p.2 :: lmEntries k rest else lmEntries k rest

/-- The keys of an association list are pairwise distinct. -/
def lmNodupKeys {K V : Type} (m : List (K × V)) : Prop :=
  (m.map Prod.fst).Nodup

theorem lmLookup_eraseAll {K V : Type} [DecidableEq K] (k : K) (m : List (K × V)) :
    lmLookup k (lmEraseAll k m) = none := by
  induction m with
  | nil => rfl
  | cons p rest ih =>
    by_cases h : p.1 = k
    · simp [lmEraseAll, h, ih]
    · simp [lmEraseAll, h, lmLookup, ih]

theorem lmLookup_append_left {K V : Type} [DecidableEq K] (k : K) {m₁ : List (K × V)}
    (m₂ : List (K × V)) {v : V} (h : lmLookup k m₁ = some v) :
    lmLookup k (m₁ ++ m₂) = some v := by
  induction m₁ with
  | nil => simp [lmLookup] at h
  | cons p rest ih =>
    by_cases hp : p.1 = k
    · simp [lmLookup, hp] at h ⊢; exact h
    · simp [lmLookup, hp] at h ⊢; exact ih h

theorem lmLookup_append_right {K V : Type} [DecidableEq K] (k : K) {m₁ : List (K × V)}
    (m₂ : List (K × V)) (h : lmLookup k m₁ = none) :
    lmLookup k (m₁ ++ m₂) = lmLookup k m₂ := by
  induction m₁ with
  | nil => rfl
  | cons p rest ih =>
    by_cases hp : p.1 = k
    · simp [lmLookup, hp] at h
    · simp [lmLookup, hp] at h ⊢; exact ih h

theorem lmLookup_insert_self {K V : Type} [DecidableEq K] (k : K) (v : V)
    (m : List (K × V)) : lmLookup k (lmInsert k v m) = some v := by
  unfold lmInsert
  rw [lmLookup_append_right k _ (lmLookup_eraseAll k m)]
  simp [lmLookup]

theorem lmEraseAll_lookup_ne {K V : Type} [DecidableEq K] {k k' : K}
    (m : List (K × V)) (h : k' ≠ k) :
    lmLookup k' (lmEraseAll k m) = lmLookup k' m := by
  induction m with
  | nil => rfl
  | cons p rest ih =>
    by_cases hp : p.1 = k
    · have hne : p.1 ≠ k' := by rw [hp]; exact fun hh => h hh.symm
      simp [lmEraseAll, hp, lmLookup, hne, ih, Ne.symm h]
    · simp [lmEraseAll, hp, lmLookup, ih]

theorem lmLookup_insert_ne {K V : Type} [DecidableEq K] {k k' : K} (v : V)
    (m : List (K × V)) (h : k' ≠ k) :
    lmLookup k' (lmInsert k v m) = lmLookup k' m := by
  unfold lmInsert
  rcases hcase : lmLookup k' (lmEraseAll k m) with _ | w
  · rw [lmLookup_append_right k' _ hcase]
    rw [← lmEraseAll_lookup_ne m h, hcase]
    simp [lmLookup, Ne.symm h]
  · rw [lmLookup_append_left k' _ hcase, ← lmEraseAll_lookup_ne m h, hcase]

theorem lmLookup_mem {K V : Type} [DecidableEq K] {k : K} {v : V}
    {m : List (K × V)} (h : lmLookup k m = some v) : (k, v) ∈ m := by
  induction m with
  | nil => simp [lmLookup] at h
  | cons p rest ih =>
    by_cases hp : p.1 = k
    · simp [lmLookup, hp] at h
      have : p = (k, v) := Prod.ext hp h
      rw [← this]
      exact List.mem_cons_self p rest
    · simp [lmLookup, hp] at h
      exact List.mem_cons_of_mem _ (ih h)

theorem lmEntries_append {K V : Type} [DecidableEq K] (k : K) (m₁ m₂ : List (K × V)) :
    lmEntries k (m₁ ++ m₂) = lmEntries k m₁ ++ lmEntries k m₂ := by
  induction m₁ with
  | nil => rfl
  | cons p rest ih =>
    by_cases hp : p.1 = k
    · simp [lmEntries, hp, ih]
    · simp [lmEntries, hp, ih]

theorem lmEntries_eraseAll {K V : Type} [DecidableEq K] (k : K) (m : List (K × V)) :
    lmEntries k (lmEraseAll k m) = [] := by
  induction m with
  | nil => rfl
  | cons p rest ih =>
    by_cases h : p.1 = k
    · simp [lmEraseAll, h, ih]
    · simp [lmEraseAll, h, lmEntries, ih]

theorem lmEntries_insert_self {K V : Type} [DecidableEq K] (k : K) (v : V)
    (m : List (K × V)) : lmEntries k (lmInsert k v m) = [v] := by
  unfold lmInsert
  rw [lmEntries_append, lmEntries_eraseAll]
  simp [lmEntries]

theorem lmEntries_eq_nil_of_not_mem {K V : Type} [DecidableEq K] {k : K}
    {m : List (K × V)} (h : k ∉ m.map Prod.fst) : lmEntries k m = [] := by
  induction m with
  | nil => rfl
  | cons p rest ih =>
    rw [List.map_cons] at h
    have hne : p.1 ≠ k := fun hh => h (by rw [hh]; exact List.mem_cons_self _ _)
    have hrest : k ∉ rest.map Prod.fst := fun hmem => h (List.mem_cons_of_mem _ hmem)
    simp [lmEntries, hne, ih hrest]

theorem lmEntries_length_le_one {K V : Type} [DecidableEq K] (k : K)
    {m : List (K × V)} (h : lmNodupKeys m) : (lmEntries k m).length ≤ 1 := by
  induction m with
  | nil => simp [lmEntries]
  | cons p rest ih =>
    unfold lmNodupKeys at h
    rw [List.map_cons, List.nodup_cons] at h
    have h₁ : p.1 ∉ rest.map Prod.fst := h.1
    have h₂ : lmNodupKeys rest := h.2
    by_cases hp : p.1 = k
    · have : lmEntries k rest = [] := lmEntries_eq_nil_of_not_mem (hp ▸ h₁)
      simp [lmEntries, hp, this]
    · simp [lmEntries, hp]
      exact ih h₂

theorem lmEraseAll_sublist {K V : Type} [DecidableEq K] (k : K) (m : List (K × V)) :
    List.Sublist (lmEraseAll k m) m := by
  induction m with
  | nil => simp [lmEraseAll]
  | cons p rest ih =>
    by_cases h : p.1 = k
    · simp [lmEraseAll, h]
      exact ih.cons p
    · simp [lmEraseAll, h]
      exact ih

theorem lmEraseAll_not_mem_keys {K V : Type} [DecidableEq K] (k : K)
    (m : List (K × V)) : k ∉ (lmEraseAll k m).map Prod.fst := by
  induction m with
  | nil => simp [lmEraseAll]
  | cons p rest ih =>
    by_cases h : p.1 = k
    · simpa [lmEraseAll, h] using ih
    · simp [lmEraseAll, h]
      exact ⟨fun hh => h hh.symm, by simpa using ih⟩

theorem lmNodupKeys_insert {K V : Type} [DecidableEq K] (k : K) (v : V)
    {m : List (K × V)} (h : lmNodupKeys m) : lmNodupKeys (lmInsert k v m) := by
  unfold lmInsert lmNodupKeys
  rw [List.map_append]
  apply List.Nodup.append
  · exact List.Nodup.sublist ((lmEraseAll_sublist k m).map Prod.fst) h
  · simp
  · intro a ha hb
    simp at hb
    subst hb
    exact lmEraseAll_not_mem_keys a m ha

/-! ## Data model (`metric_store.go`, collector types) -/

/-- `schema.GroupResource`. -/
structure GroupResource where
  group : String
  resource : String
deriving DecidableEq, Repr

/-- The fields of `custom_metrics.MetricValue` used by the store:
`DescribedObject.{Kind, Namespace, Name}`, `MetricName` and `Value`
(the quantity, in milli-units). -/
structure CustomMetricValue where
  describedObjectKind : String
  describedObjectNamespace : String
  describedObjectName : String
  metricName : String
  value : Int
deriving DecidableEq, Repr

/-- The fields of `external_metrics.ExternalMetricValue` used by the code:
`MetricName`, `MetricLabels`, `Timestamp` and `Value` (milli-units). -/
structure ExternalMetricValue where
  metricName : String
  metricLabels : List (String × String)
  timestamp : Int
  value : Int
deriving DecidableEq, Repr

/-- `autoscalingv2beta1.MetricSourceType`. -/
inductive MetricSourceType where
  | object
  | pods
  | resource
  | external
deriving DecidableEq, Repr

/-- `collector.CollectedMetric`: a discriminated union tagged by `Type`,
with the `Custom`, `External` and `Labels` payload fields. -/
structure CollectedMetric where
  sourceType : MetricSourceType
  custom : CustomMetricValue
  external : ExternalMetricValue
  labels : List (String × String)
deriving DecidableEq, Repr

/-- `customMetricsStoredMetric`: a custom metric value plus labels and TTL. -/
structure CustomStoredMetric where
  value : CustomMetricValue
  labels : List (String × String)
  ttl : Int
deriving DecidableEq, Repr

/-- `externalMetricsStoredMetric`: an external metric value plus TTL. -/
structure ExternalStoredMetric where
  value : ExternalMetricValue
  ttl : Int
deriving DecidableEq, Repr

/-- `MetricStore`: the two nested in-memory maps (without the mutex, which
only serialises access and does not affect the sequential semantics). -/
structure MetricStore where
  customMetricsStore :
    List (String × List (GroupResource × List (String × List (String × CustomStoredMetric))))
  externalMetricsStore : List (String × List (String × ExternalStoredMetric))
deriving Repr

/-- `NewMetricStore`: the empty store. -/
def NewMetricStore : MetricStore := ⟨[], []⟩

/-- The fixed TTL `15 * time.Minute`, in seconds. -/
def storeTTLSeconds : Int := 15 * 60

/-- The kind → group-resource mapping hard-coded in `insertCustomMetric`
(`Pod ↦ pods`, `Ingress ↦ extensions/ingresses`, anything else ↦ the zero
`schema.GroupResource`). -/
def customGroupResource (kind : String) : GroupResource :=
  if kind = "Pod" then ⟨"", "pods"⟩
  else if kind = "Ingress" then ⟨"extensions", "ingresses"⟩
  else ⟨"", ""⟩

/-- `insertCustomMetric`. `now` is the value of `time.Now().UTC()`.
Returns `none` where the Go code faults: when the metric name is already
present but the group-resource is new, the code runs
`group[value.DescribedObject.Namespace] = …` with the local `group` still
`nil`, and when the namespace is new it runs
`namespace[value.DescribedObject.Name] = metric` with the local `namespace`
still `nil` — both are assignments to an entry in a nil map, a runtime
panic. -/
def MetricStore.insertCustomMetric (now : Int) (value : CustomMetricValue)
    (labels : List (String × String)) (s : MetricStore) : Option MetricStore :=
  let groupResource := customGroupResource value.describedObjectKind
  let metric : CustomStoredMetric := ⟨value, labels, now + storeTTLSeconds⟩
  match lmLookup value.metricName s.customMetricsStore with
  | none =>
    let fresh :=
      [(groupResource,
        [(value.describedObjectNamespace, [(value.describedObjectName, metric)])])]
    some { s with customMetricsStore := lmInsert value.metricName fresh s.customMetricsStore }
  | some metrics =>
    match lmLookup groupResource metrics with
    | none => none
    | some group =>
      match lmLookup value.describedObjectNamespace group with
      | none => none
      | some namespaceMap =>
        let namespaceMap₂ := lmInsert value.describedObjectName metric namespaceMap
        let group₂ := lmInsert value.describedObjectNamespace namespaceMap₂ group
        let metrics₂ := lmInsert groupResource group₂ metrics
        some { s with customMetricsStore := lmInsert value.metricName metrics₂ s.customMetricsStore }

/-- `hashLabelMap`: the `k=v` pairs of the label map, sorted, joined by `,`. -/
def hashLabelMap (labels : List (String × String)) : String :=
  String.intercalate ","
    (List.insertionSort (· ≤ ·) (labels.map (fun p => p.1 ++ "=" ++ p.2)))

/-- `insertExternalMetric`. -/
def MetricStore.insertExternalMetric (now : Int) (metric : ExternalMetricValue)
    (s : MetricStore) : MetricStore :=
  let storedMetric : ExternalStoredMetric := ⟨metric, now + storeTTLSeconds⟩
  let labelsKey := hashLabelMap metric.metricLabels
  match lmLookup metric.metricName s.externalMetricsStore with
  | some metrics =>
    let metrics₂ := lmInsert labelsKey storedMetric metrics
    { s with externalMetricsStore := lmInsert metric.metricName metrics₂ s.externalMetricsStore }
  | none =>
    let metrics₂ := [(labelsKey, storedMetric)]
    { s with externalMetricsStore := lmInsert metric.metricName metrics₂ s.externalMetricsStore }

/-- `MetricStore.Insert`: dispatch on the metric source type. The `Resource`
source type falls through the Go `switch` and leaves the store unchanged. -/
def MetricStore.Insert (now : Int) (value : CollectedMetric) (s : MetricStore) :
    Option MetricStore :=
  match value.sourceType with
  | .object | .pods => s.insertCustomMetric now value.custom value.labels
  | .external => some (s.insertExternalMetric now value.external)
  | .resource => some s

/-- The `namespace == ""` branch of `GetMetricsByName`: iterate over the
namespaces of the group and return the first hit. -/
def lookupAnyNamespace (name : String) :
    List (String × List (String × CustomStoredMetric)) → Option CustomMetricValue
  | [] => none
  | (_, metricMap) :: rest =>
    match lmLookup name metricMap with
    | some metric => some metric.value
    | none => lookupAnyNamespace name rest

/-- `GetMetricsByName`. -/
def MetricStore.GetMetricsByName (s : MetricStore) (metricName : String)
    (groupResource : GroupResource) (namespaceName name : String) :
    Option CustomMetricValue :=
  match lmLookup metricName s.customMetricsStore with
  | none => none
  | some metrics =>
    match lmLookup groupResource metrics with
    | none => none
    | some group =>
      if namespaceName = "" then
        lookupAnyNamespace name group
      else
        match lmLookup namespaceName group with
        | some metricMap =>
          match lmLookup name metricMap with
          | some metric => some metric.value
          | none => none
        | none => none

/-- The body of the selector scan over one namespace's metric map. -/
def selectorScan (sel : List (String × String) → Bool) :
    List (String × CustomStoredMetric) → List CustomMetricValue :=
  List.filterMap (fun q => if sel q.2.labels then some q.2.value else none)

/-- `GetMetricsBySelector`. A `none` result models the `nil` pointer the Go
function returns when the metric name or group-resource is unknown; the
caller-supplied selector is modelled as a Boolean predicate on label maps. -/
def MetricStore.GetMetricsBySelector (s : MetricStore) (metricName : String)
    (groupResource : GroupResource) (namespaceName : String)
    (sel : List (String × String) → Bool) : Option (List CustomMetricValue) :=
  match lmLookup metricName s.customMetricsStore with
  | none => none
  | some metrics =>
    match lmLookup groupResource metrics with
    | none => none
    | some group =>
      if namespaceName = "" then
        some (group.flatMap (fun p => selectorScan sel p.2))
      else
        match lmLookup namespaceName group with
        | some metricMap => some (selectorScan sel metricMap)
        | none => some []

/-- `RemoveExpired`. A metric is expired iff its TTL is before `now`
(`metric.TTL.Before(time.Now().UTC())`); expired entries are deleted and
empty containers are pruned at every level, exactly as the nested loops do. -/
def removeExpiredCustom (now : Int)
    (store : List (String × List (GroupResource ×
      List (String × List (String × CustomStoredMetric))))) :
    List (String × List (GroupResource ×
      List (String × List (String × CustomStoredMetric)))) :=
  (store.map (fun p =>
    (p.1, ((p.2.map (fun q =>
      (q.1, ((q.2.map (fun r =>
        (r.1, r.2.filter (fun e => decide (¬ e.2.ttl < now))))).filter
          (fun r => decide (r.2 ≠ [])))))).filter (fun q => decide (q.2 ≠ [])))))).filter
    (fun p => decide (p.2 ≠ []))

/-- The external-metrics half of `RemoveExpired`. -/
def removeExpiredExternal (now : Int)
    (store : List (String × List (String × ExternalStoredMetric))) :
    List (String × List (String × ExternalStoredMetric)) :=
  (store.map (fun p =>
    (p.1, p.2.filter (fun e => decide (¬ e.2.ttl < now))))).filter
    (fun p => decide (p.2 ≠ []))

/-- `RemoveExpired` assembled from its two halves. -/
def MetricStore.RemoveExpired (now : Int) (s : MetricStore) : MetricStore :=
  ⟨removeExpiredCustom now s.customMetricsStore,
    removeExpiredExternal now s.externalMetricsStore⟩

/-! ## Store identities, invariants and reachability -/

/-- The identity under which `insertCustomMetric` files a custom metric:
metric name, derived group-resource, namespace and object name. -/
structure CustomIdentity where
  metricName : String
  groupResource : GroupResource
  namespaceName : String
  objectName : String
deriving DecidableEq, Repr

/-- The identity of a custom metric value, as derived by `insertCustomMetric`. -/
def customIdentity (v : CustomMetricValue) : CustomIdentity :=
  ⟨v.metricName, customGroupResource v.describedObjectKind,
    v.describedObjectNamespace, v.describedObjectName⟩

/-- The stored entry at a custom identity (the four nested lookups). -/
def MetricStore.entryAt (s : MetricStore) (id : CustomIdentity) :
    Option CustomStoredMetric :=
  (lmLookup id.metricName s.customMetricsStore).bind (fun metrics =>
    (lmLookup id.groupResource metrics).bind (fun group =>
      (lmLookup id.namespaceName group).bind (fun rs =>
        lmLookup id.objectName rs)))

/-- Every stored entry at a custom identity, duplicates included (used to
state that at most one entry exists per identity). -/
def MetricStore.entriesForId (s : MetricStore) (id : CustomIdentity) :
    List CustomStoredMetric :=
  (lmEntries id.metricName s.customMetricsStore).flatMap (fun metrics =>
    (lmEntries id.groupResource metrics).flatMap (fun group =>
      (lmEntries id.namespaceName group).flatMap (fun rs =>
        lmEntries id.objectName rs)))

/-- Structural invariant of stores built by sequences of (non-faulting)
inserts: metric-name keys are distinct, and each metric name holds exactly
one group-resource holding exactly one namespace, whose object-name keys are
distinct. -/
def StoreInv (s : MetricStore) : Prop :=
  lmNodupKeys s.customMetricsStore ∧
  ∀ p ∈ s.customMetricsStore,
    ∃ gr ns rs, p.2 = [(gr, [(ns, rs)])] ∧ lmNodupKeys rs

/-- Stores reachable from the empty store by sequences of `Insert` calls
that do not fault. -/
inductive Reachable : MetricStore → Prop
  | empty : Reachable NewMetricStore
  | insert {s s₂ : MetricStore} {now : Int} {v : CollectedMetric} :
      Reachable s → MetricStore.Insert now v s = some s₂ → Reachable s₂

theorem lmInsert_mem {K V : Type} [DecidableEq K] {k : K} {v : V}
    {m : List (K × V)} {p : K × V} (h : p ∈ lmInsert k v m) :
    p ∈ m ∨ p = (k, v) := by
  unfold lmInsert at h
  rcases List.mem_append.1 h with h | h
  · exact Or.inl ((lmEraseAll_sublist k m).subset h)
  · simp at h
    exact Or.inr h

theorem insertExternal_customStore (now : Int) (m : ExternalMetricValue)
    (s : MetricStore) :
    (s.insertExternalMetric now m).customMetricsStore = s.customMetricsStore := by
  unfold MetricStore.insertExternalMetric
  split <;> rfl

theorem storeInv_empty : StoreInv NewMetricStore := by
  constructor
  · simp [NewMetricStore, lmNodupKeys]
  · intro p hp
    simp [NewMetricStore] at hp

theorem storeInv_insertCustom {s s₂ : MetricStore} {now : Int}
    {v : CustomMetricValue} {lbls : List (String × String)}
    (hinv : StoreInv s) (h : s.insertCustomMetric now v lbls = some s₂) :
    StoreInv s₂ := by
  unfold MetricStore.insertCustomMetric at h
  split at h
  case h_1 hmn =>
    simp only [Option.some.injEq] at h
    subst h
    constructor
    · exact lmNodupKeys_insert _ _ hinv.1
    · intro p hp
      rcases lmInsert_mem hp with hp | hp
      · exact hinv.2 p hp
      · subst hp
        exact ⟨_, _, _, rfl, by simp [lmNodupKeys]⟩
  case h_2 metrics hmn =>
    dsimp only at h
    split at h
    case h_1 => exact absurd h (by simp)
    case h_2 group hgr =>
      split at h
      case h_1 => exact absurd h (by simp)
      case h_2 nsmap hns =>
        simp only [Option.some.injEq] at h
        subst h
        have hmem := lmLookup_mem hmn
        obtain ⟨gr₀, ns₀, rs₀, hstruct, hnodup⟩ := hinv.2 _ hmem
        simp only at hstruct
        subst hstruct
        have hgr₀ : gr₀ = customGroupResource v.describedObjectKind ∧
            group = [(ns₀, rs₀)] := by
          by_cases hc : gr₀ = customGroupResource v.describedObjectKind
          · refine ⟨hc, ?_⟩
            rw [← hc] at hgr
            simpa [lmLookup] using hgr.symm
          · rw [lmLookup] at hgr
            simp [hc, lmLookup] at hgr
        obtain ⟨hgreq, hgroup⟩ := hgr₀
        subst hgroup
        have hns₀ : ns₀ = v.describedObjectNamespace ∧ nsmap = rs₀ := by
          by_cases hc : ns₀ = v.describedObjectNamespace
          · refine ⟨hc, ?_⟩
            rw [← hc] at hns
            simpa [lmLookup] using hns.symm
          · rw [lmLookup] at hns
            simp [hc, lmLookup] at hns
        obtain ⟨hnseq, hnsmap⟩ := hns₀
        subst hnsmap
        constructor
        · exact lmNodupKeys_insert _ _ hinv.1
        · intro p hp
          rcases lmInsert_mem hp with hp | hp
          · exact hinv.2 p hp
          · subst hp
            subst hgreq
            subst hnseq
            refine ⟨customGroupResource v.describedObjectKind,
              v.describedObjectNamespace,
              lmInsert v.describedObjectName ⟨v, lbls, now + storeTTLSeconds⟩ nsmap,
              ?_, lmNodupKeys_insert _ _ hnodup⟩
            simp [lmInsert, lmEraseAll]

theorem storeInv_insert {s s₂ : MetricStore} {now : Int} {v : CollectedMetric}
    (hinv : StoreInv s) (h : MetricStore.Insert now v s = some s₂) :
    StoreInv s₂ := by
  unfold MetricStore.Insert at h
  split at h
  · exact storeInv_insertCustom hinv h
  · exact storeInv_insertCustom hinv h
  · simp only [Option.some.injEq] at h
    subst h
    exact ⟨by rw [insertExternal_customStore]; exact hinv.1,
      by rw [insertExternal_customStore]; exact hinv.2⟩
  · simp only [Option.some.injEq] at h
    subst h
    exact hinv

theorem storeInv_reachable {s : MetricStore} (h : Reachable s) : StoreInv s := by
  induction h with
  | empty => exact storeInv_empty
  | insert _ hstep ih => exact storeInv_insert ih hstep

theorem entryAt_insertCustom_self {s s₂ : MetricStore} {now : Int}
    {v : CustomMetricValue} {lbls : List (String × String)}
    (h : s.insertCustomMetric now v lbls = some s₂) :
    s₂.entryAt (customIdentity v) = some ⟨v, lbls, now + storeTTLSeconds⟩ := by
  unfold MetricStore.insertCustomMetric at h
  split at h
  case h_1 hmn =>
    simp only [Option.some.injEq] at h
    subst h
    simp only [MetricStore.entryAt, customIdentity, lmLookup_insert_self,
      Option.some_bind]
    simp [lmLookup]
  case h_2 metrics hmn =>
    dsimp only at h
    split at h
    case h_1 => exact absurd h (by simp)
    case h_2 group hgr =>
      split at h
      case h_1 => exact absurd h (by simp)
      case h_2 nsmap hns =>
        simp only [Option.some.injEq] at h
        subst h
        simp only [MetricStore.entryAt, customIdentity, lmLookup_insert_self,
          Option.some_bind]

theorem entryAt_insertCustom_ne {s s₂ : MetricStore} {now : Int}
    {w : CustomMetricValue} {lw : List (String × String)} {id : CustomIdentity}
    {m : CustomStoredMetric}
    (h : s.insertCustomMetric now w lw = some s₂)
    (hne : customIdentity w ≠ id) (hm : s.entryAt id = some m) :
    s₂.entryAt id = some m := by
  rw [MetricStore.entryAt] at hm
  unfold MetricStore.insertCustomMetric at h
  split at h
  case h_1 hmn =>
    simp only [Option.some.injEq] at h
    subst h
    have hmnne : id.metricName ≠ w.metricName := by
      intro hc
      rw [hc, hmn] at hm
      simp at hm
    rw [MetricStore.entryAt]
    simp only
    rw [lmLookup_insert_ne _ _ hmnne]
    exact hm
  case h_2 metrics hmn =>
    dsimp only at h
    split at h
    case h_1 => exact absurd h (by simp)
    case h_2 group hgr =>
      split at h
      case h_1 => exact absurd h (by simp)
      case h_2 nsmap hns =>
        simp only [Option.some.injEq] at h
        subst h
        rw [MetricStore.entryAt]
        simp only
        by_cases hc₁ : id.metricName = w.metricName
        · rw [hc₁, lmLookup_insert_self]
          rw [hc₁, hmn] at hm
          simp only [Option.some_bind] at hm ⊢
          by_cases hc₂ : id.groupResource = customGroupResource w.describedObjectKind
          · rw [hc₂, lmLookup_insert_self]
            rw [hc₂, hgr] at hm
            simp only [Option.some_bind] at hm ⊢
            by_cases hc₃ : id.namespaceName = w.describedObjectNamespace
            · rw [hc₃, lmLookup_insert_self]
              rw [hc₃, hns] at hm
              simp only [Option.some_bind] at hm ⊢
              have hc₄ : id.objectName ≠ w.describedObjectName := by
                intro hc
                apply hne
                cases id
                simp only at hc₁ hc₂ hc₃ hc
                simp [customIdentity, hc₁, hc₂, hc₃, hc]
              rw [lmLookup_insert_ne _ _ hc₄]
              exact hm
            · rw [lmLookup_insert_ne _ _ hc₃]
              exact hm
          · rw [lmLookup_insert_ne _ _ hc₂]
            exact hm
        · rw [lmLookup_insert_ne _ _ hc₁]
          exact hm

theorem insertCustom_of_entryAt {s : MetricStore} {v : CustomMetricValue}
    {m : CustomStoredMetric} (hm : s.entryAt (customIdentity v) = some m)
    (now : Int) (lbls : List (String × String)) :
    ∃ s₂, s.insertCustomMetric now v lbls = some s₂ := by
  rw [MetricStore.entryAt] at hm
  simp only [customIdentity] at hm
  rcases hmn : lmLookup v.metricName s.customMetricsStore with _ | metrics
  · rw [hmn] at hm; simp at hm
  · rw [hmn] at hm
    simp only [Option.some_bind] at hm
    rcases hgr : lmLookup (customGroupResource v.describedObjectKind) metrics
        with _ | group
    · rw [hgr] at hm; simp at hm
    · rw [hgr] at hm
      simp only [Option.some_bind] at hm
      rcases hns : lmLookup v.describedObjectNamespace group with _ | nsmap
      · rw [hns] at hm; simp at hm
      · refine ⟨MetricStore.mk
          (lmInsert v.metricName
            (lmInsert (customGroupResource v.describedObjectKind)
              (lmInsert v.describedObjectNamespace
                (lmInsert v.describedObjectName
                  ⟨v, lbls, now + storeTTLSeconds⟩ nsmap) group) metrics)
            s.customMetricsStore)
          s.externalMetricsStore, ?_⟩
        unfold MetricStore.insertCustomMetric
        simp only [hmn, hgr, hns]

theorem entriesForId_insertCustom {s s₂ : MetricStore} {now : Int}
    {v : CustomMetricValue} {lbls : List (String × String)}
    (h : s.insertCustomMetric now v lbls = some s₂) :
    s₂.entriesForId (customIdentity v) = [⟨v, lbls, now + storeTTLSeconds⟩] := by
  unfold MetricStore.insertCustomMetric at h
  split at h
  case h_1 hmn =>
    simp only [Option.some.injEq] at h
    subst h
    unfold MetricStore.entriesForId customIdentity
    simp only
    rw [lmEntries_insert_self]
    simp [lmEntries]
  case h_2 metrics hmn =>
    dsimp only at h
    split at h
    case h_1 => exact absurd h (by simp)
    case h_2 group hgr =>
      split at h
      case h_1 => exact absurd h (by simp)
      case h_2 nsmap hns =>
        simp only [Option.some.injEq] at h
        subst h
        unfold MetricStore.entriesForId customIdentity
        simp only
        rw [lmEntries_insert_self]
        simp only [List.flatMap_cons, List.flatMap_nil, List.append_nil]
        rw [lmEntries_insert_self]
        simp only [List.flatMap_cons, List.flatMap_nil, List.append_nil]
        rw [lmEntries_insert_self]
        simp only [List.flatMap_cons, List.flatMap_nil, List.append_nil]
        rw [lmEntries_insert_self]

theorem lmEntries_mem {K V : Type} [DecidableEq K] {k : K} {x : V}
    {m : List (K × V)} (h : x ∈ lmEntries k m) : (k, x) ∈ m := by
  induction m with
  | nil => simp [lmEntries] at h
  | cons p rest ih =>
    by_cases hp : p.1 = k
    · rw [lmEntries, if_pos hp] at h
      rcases List.mem_cons.1 h with h | h
      · have hpk : p = (k, x) := Prod.ext hp h.symm
        rw [← hpk]
        exact List.mem_cons_self p rest
      · exact List.mem_cons_of_mem _ (ih h)
    · rw [lmEntries, if_neg hp] at h
      exact List.mem_cons_of_mem _ (ih h)

theorem entriesForId_length_le_one {s : MetricStore} (hinv : StoreInv s)
    (id : CustomIdentity) : (s.entriesForId id).length ≤ 1 := by
  unfold MetricStore.entriesForId
  rcases htop : lmEntries id.metricName s.customMetricsStore with _ | ⟨metrics, rest⟩
  · simp
  · have hle := lmEntries_length_le_one id.metricName hinv.1
    rw [htop] at hle
    have hrest : rest = [] := by
      cases rest with
      | nil => rfl
      | cons a t => simp at hle
    subst hrest
    have hmem : (id.metricName, metrics) ∈ s.customMetricsStore := by
      apply lmEntries_mem
      rw [htop]
      exact List.mem_cons_self _ _
    obtain ⟨gr, ns, rs, hstruct, hnodup⟩ := hinv.2 _ hmem
    simp only at hstruct
    subst hstruct
    simp only [List.flatMap_cons, List.flatMap_nil, List.append_nil]
    by_cases hgr : gr = id.groupResource
    · rw [lmEntries, if_pos hgr, lmEntries]
      simp only [List.flatMap_cons, List.flatMap_nil, List.append_nil]
      by_cases hns : ns = id.namespaceName
      · rw [lmEntries, if_pos hns, lmEntries]
        simp only [List.flatMap_cons, List.flatMap_nil, List.append_nil]
        exact lmEntries_length_le_one id.objectName hnodup
      · rw [lmEntries, if_neg hns, lmEntries]
        simp
    · rw [lmEntries, if_neg hgr, lmEntries]
      simp

theorem lmLookup_singleton_inv {K V : Type} [DecidableEq K] {k k₀ : K} {v₀ v : V}
    (h : lmLookup k [(k₀, v₀)] = some v) : k₀ = k ∧ v = v₀ := by
  rw [lmLookup] at h
  by_cases hc : k₀ = k
  · rw [if_pos hc] at h
    exact ⟨hc, by simpa using h.symm⟩
  · rw [if_neg hc] at h
    simp [lmLookup] at h

theorem getMetricsByName_entryAt {s : MetricStore} {id : CustomIdentity}
    {m : CustomStoredMetric} (hinv : StoreInv s) (hm : s.entryAt id = some m) :
    s.GetMetricsByName id.metricName id.groupResource id.namespaceName
      id.objectName = some m.value := by
  rw [MetricStore.entryAt] at hm
  rcases hmn : lmLookup id.metricName s.customMetricsStore with _ | metrics
  · rw [hmn] at hm; simp at hm
  · rw [hmn] at hm
    simp only [Option.some_bind] at hm
    rcases hgr : lmLookup id.groupResource metrics with _ | group
    · rw [hgr] at hm; simp at hm
    · rw [hgr] at hm
      simp only [Option.some_bind] at hm
      rcases hns : lmLookup id.namespaceName group with _ | rs
      · rw [hns] at hm; simp at hm
      · rw [hns] at hm
        simp only [Option.some_bind] at hm
        unfold MetricStore.GetMetricsByName
        simp only [hmn, hgr]
        by_cases hempty : id.namespaceName = ""
        · rw [if_pos hempty]
          obtain ⟨gr₀, ns₀, rs₀, hstruct, _⟩ := hinv.2 _ (lmLookup_mem hmn)
          simp only at hstruct
          subst hstruct
          obtain ⟨hgr₀, hgroup⟩ := lmLookup_singleton_inv hgr
          subst hgroup
          obtain ⟨hns₀, hrs⟩ := lmLookup_singleton_inv hns
          subst hrs
          simp [lookupAnyNamespace, hm]
        · rw [if_neg hempty]
          simp only [hns, hm]

/-- Whether an `Insert` of this collected metric writes to the given custom
identity (only object/pods inserts touch the custom store). -/
def touchesIdentity (c : CollectedMetric) (id : CustomIdentity) : Prop :=
  (c.sourceType = .object ∨ c.sourceType = .pods) ∧ customIdentity c.custom = id

instance (c : CollectedMetric) (id : CustomIdentity) :
    Decidable (touchesIdentity c id) := by
  unfold touchesIdentity
  infer_instance

theorem entryAt_insertExternal (now : Int) (em : ExternalMetricValue)
    (s : MetricStore) (id : CustomIdentity) :
    (s.insertExternalMetric now em).entryAt id = s.entryAt id := by
  rw [MetricStore.entryAt, MetricStore.entryAt, insertExternal_customStore]

theorem entryAt_insert_preserve {s s₂ : MetricStore} {t : Int}
    {w : CollectedMetric} {id : CustomIdentity} {m : CustomStoredMetric}
    (h : MetricStore.Insert t w s = some s₂)
    (hnt : ¬ touchesIdentity w id) (hm : s.entryAt id = some m) :
    s₂.entryAt id = some m := by
  unfold MetricStore.Insert at h
  split at h
  case h_1 heq =>
    exact entryAt_insertCustom_ne h (fun hc => hnt ⟨Or.inl heq, hc⟩) hm
  case h_2 heq =>
    exact entryAt_insertCustom_ne h (fun hc => hnt ⟨Or.inr heq, hc⟩) hm
  case h_3 =>
    simp only [Option.some.injEq] at h
    subst h
    rw [entryAt_insertExternal]
    exact hm
  case h_4 =>
    simp only [Option.some.injEq] at h
    subst h
    exact hm

/-- A sequence of `Insert` calls, faulting if any single insert faults. -/
def insertSeq : List (Int × CollectedMetric) → MetricStore → Option MetricStore
  | [], s => some s
  | p :: rest, s => (MetricStore.Insert p.1 p.2 s).bind (insertSeq rest)

theorem insertSeq_preserve {ws : List (Int × CollectedMetric)}
    {s s₂ : MetricStore} {id : CustomIdentity} {m : CustomStoredMetric}
    (hseq : insertSeq ws s = some s₂)
    (hnt : ∀ p ∈ ws, ¬ touchesIdentity p.2 id)
    (hm : s.entryAt id = some m) : s₂.entryAt id = some m := by
  induction ws generalizing s with
  | nil =>
    rw [insertSeq, Option.some.injEq] at hseq
    subst hseq
    exact hm
  | cons p rest ih =>
    rw [insertSeq] at hseq
    rcases hstep : MetricStore.Insert p.1 p.2 s with _ | s₁
    · rw [hstep] at hseq; simp at hseq
    · rw [hstep] at hseq
      simp only [Option.some_bind] at hseq
      exact ih hseq (fun q hq => hnt q (List.mem_cons_of_mem _ hq))
        (entryAt_insert_preserve hstep (hnt p (List.mem_cons_self _ _)) hm)

theorem reachable_insertSeq {ws : List (Int × CollectedMetric)}
    {s s₂ : MetricStore} (hr : Reachable s) (hseq : insertSeq ws s = some s₂) :
    Reachable s₂ := by
  induction ws generalizing s with
  | nil =>
    rw [insertSeq, Option.some.injEq] at hseq
    subst hseq
    exact hr
  | cons p rest ih =>
    rw [insertSeq] at hseq
    rcases hstep : MetricStore.Insert p.1 p.2 s with _ | s₁
    · rw [hstep] at hseq; simp at hseq
    · rw [hstep] at hseq
      simp only [Option.some_bind] at hseq
      exact ih (Reachable.insert hr hstep) hseq

/-! ## Claim theorems for the metric store -/

/-- C1: round-trip of store insert and exact lookup. For every custom metric
inserted with identity `(metricName, groupResource, namespace, objectName)`
into a store produced by any preceding sequence of inserts, and after any
further sequence of inserts none of which writes to that same identity, a
`GetMetricsByName` with that identity returns exactly the inserted value. -/
theorem insert_getMetricsByName_roundtrip
    {s s₁ s₂ : MetricStore} {t : Int} {v : CustomMetricValue}
    {lbls : List (String × String)} {ws : List (Int × CollectedMetric)}
    (hr : Reachable s)
    (hins : s.insertCustomMetric t v lbls = some s₁)
    (hseq : insertSeq ws s₁ = some s₂)
    (hother : ∀ p ∈ ws, ¬ touchesIdentity p.2 (customIdentity v)) :
    s₂.GetMetricsByName v.metricName (customGroupResource v.describedObjectKind)
      v.describedObjectNamespace v.describedObjectName = some v := by
  have hstep : MetricStore.Insert t ⟨.object, v, ⟨"", [], 0, 0⟩, lbls⟩ s = some s₁ := hins
  have hr₁ : Reachable s₁ := Reachable.insert hr hstep
  have hr₂ : Reachable s₂ := reachable_insertSeq hr₁ hseq
  have he₁ := entryAt_insertCustom_self hins
  have he₂ := insertSeq_preserve hseq hother he₁
  have hfinal := getMetricsByName_entryAt (storeInv_reachable hr₂) he₂
  simpa [customIdentity] using hfinal

/-- Witness for C1: inserting `m/pods/ns1/a = 42` into the empty store and
looking it up by name returns the inserted value. -/
theorem insert_getMetricsByName_roundtrip_witness :
    MetricStore.GetMetricsByName
      (MetricStore.mk
        [("m", [(GroupResource.mk "" "pods",
          [("ns1", [("a", CustomStoredMetric.mk
            (CustomMetricValue.mk "Pod" "ns1" "a" "m" 42) [] 900)])])])]
        [])
      "m" (GroupResource.mk "" "pods") "ns1" "a" =
      some (CustomMetricValue.mk "Pod" "ns1" "a" "m" 42) :=
  @insert_getMetricsByName_roundtrip NewMetricStore
    (MetricStore.mk
      [("m", [(GroupResource.mk "" "pods",
        [("ns1", [("a", CustomStoredMetric.mk
          (CustomMetricValue.mk "Pod" "ns1" "a" "m" 42) [] 900)])])])]
      [])
    (MetricStore.mk
      [("m", [(GroupResource.mk "" "pods",
        [("ns1", [("a", CustomStoredMetric.mk
          (CustomMetricValue.mk "Pod" "ns1" "a" "m" 42) [] 900)])])])]
      [])
    0 (CustomMetricValue.mk "Pod" "ns1" "a" "m" 42) [] []
    Reachable.empty rfl rfl (by simp)

/-- C2 (code bug witness): `insertCustomMetric` faults (assignment to an
entry in a nil map) whenever the metric name is already present but the
group-resource or the namespace under it is new: inserting `m` for an
`Ingress` (new group-resource) after `m` was stored for a `Pod`, and
inserting `m` for a `Pod` in a new namespace, both fault instead of storing
the value. -/
theorem insertCustomMetric_faults_on_new_subkey :
    ((NewMetricStore.insertCustomMetric 0
        (CustomMetricValue.mk "Pod" "ns1" "a" "m" 42) []).bind
      (fun s => s.insertCustomMetric 1
        (CustomMetricValue.mk "Ingress" "ns1" "a" "m" 7) []) = none) ∧
    ((NewMetricStore.insertCustomMetric 0
        (CustomMetricValue.mk "Pod" "ns1" "a" "m" 42) []).bind
      (fun s => s.insertCustomMetric 1
        (CustomMetricValue.mk "Pod" "ns2" "b" "m" 7) []) = none) := by
  constructor <;> rfl

/-- C3: re-inserting at an identity already present replaces the stored
value, stamps the fresh expiry `now + TTL`, and the store then holds exactly
one entry for that identity; moreover every store reachable by inserts holds
at most one entry per identity. -/
theorem reinsert_overwrites_resets_ttl
    {s s₁ : MetricStore} {t t₂ : Int} {v w : CustomMetricValue}
    {lbls lw : List (String × String)}
    (h₁ : s.insertCustomMetric t v lbls = some s₁)
    (hid : customIdentity w = customIdentity v) :
    (∃ s₂, s₁.insertCustomMetric t₂ w lw = some s₂ ∧
      s₂.entriesForId (customIdentity v) = [⟨w, lw, t₂ + storeTTLSeconds⟩]) ∧
    ∀ u : MetricStore, Reachable u → ∀ id, (u.entriesForId id).length ≤ 1 := by
  constructor
  · have he := entryAt_insertCustom_self h₁
    rw [← hid] at he
    obtain ⟨s₂, hs₂⟩ := insertCustom_of_entryAt he t₂ lw
    refine ⟨s₂, hs₂, ?_⟩
    have h₃ := entriesForId_insertCustom hs₂
    rwa [hid] at h₃
  · intro u hr id
    exact entriesForId_length_le_one (storeInv_reachable hr) id

/-- Witness for C3: re-inserting `m/pods/ns1/a` at time 100 over the entry
inserted at time 0 succeeds, overwrites the value and holds one entry with
TTL `100 + 900`. -/
theorem reinsert_overwrites_resets_ttl_witness :
    (∃ s₂, MetricStore.insertCustomMetric 100
        (CustomMetricValue.mk "Pod" "ns1" "a" "m" 7) []
        (MetricStore.mk
          [("m", [(GroupResource.mk "" "pods",
            [("ns1", [("a", CustomStoredMetric.mk
              (CustomMetricValue.mk "Pod" "ns1" "a" "m" 42) [] 900)])])])]
          []) = some s₂ ∧
      s₂.entriesForId (customIdentity (CustomMetricValue.mk "Pod" "ns1" "a" "m" 42)) =
        [CustomStoredMetric.mk (CustomMetricValue.mk "Pod" "ns1" "a" "m" 7) []
          (100 + storeTTLSeconds)]) ∧
    ∀ u : MetricStore, Reachable u → ∀ id, (u.entriesForId id).length ≤ 1 :=
  @reinsert_overwrites_resets_ttl NewMetricStore
    (MetricStore.mk
      [("m", [(GroupResource.mk "" "pods",
        [("ns1", [("a", CustomStoredMetric.mk
          (CustomMetricValue.mk "Pod" "ns1" "a" "m" 42) [] 900)])])])]
      [])
    0 100 (CustomMetricValue.mk "Pod" "ns1" "a" "m" 42)
    (CustomMetricValue.mk "Pod" "ns1" "a" "m" 7) [] [] rfl rfl

/-! ## C4: RemoveExpired postcondition -/

/-- C4: after `RemoveExpired`, no stored entry (custom or external) whose
TTL is before the call time remains, and no empty container remains at any
nesting level: metric-name, group-resource and namespace containers on the
custom side, and metric-name containers on the external side, are all
non-empty. -/
theorem removeExpired_postcondition (now : Int) (s : MetricStore) :
    (∀ p ∈ (s.RemoveExpired now).customMetricsStore,
      p.2 ≠ [] ∧ ∀ q ∈ p.2, q.2 ≠ [] ∧ ∀ r ∈ q.2, r.2 ≠ [] ∧
        ∀ e ∈ r.2, ¬ e.2.ttl < now) ∧
    (∀ p ∈ (s.RemoveExpired now).externalMetricsStore,
      p.2 ≠ [] ∧ ∀ e ∈ p.2, ¬ e.2.ttl < now) := by
  constructor
  · intro p hp
    have hp₂ : p ∈ removeExpiredCustom now s.customMetricsStore := hp
    rw [removeExpiredCustom] at hp₂
    obtain ⟨hpmem, hpdec⟩ := List.mem_filter.1 hp₂
    refine ⟨of_decide_eq_true hpdec, ?_⟩
    obtain ⟨p₀, hp₀, hpeq⟩ := List.mem_map.1 hpmem
    subst hpeq
    intro q hq
    obtain ⟨hqmem, hqdec⟩ := List.mem_filter.1 hq
    refine ⟨of_decide_eq_true hqdec, ?_⟩
    obtain ⟨q₀, hq₀, hqeq⟩ := List.mem_map.1 hqmem
    subst hqeq
    intro r hr
    obtain ⟨hrmem, hrdec⟩ := List.mem_filter.1 hr
    refine ⟨of_decide_eq_true hrdec, ?_⟩
    obtain ⟨r₀, hr₀, hreq⟩ := List.mem_map.1 hrmem
    subst hreq
    intro e he
    obtain ⟨hemem, hedec⟩ := List.mem_filter.1 he
    exact of_decide_eq_true hedec
  · intro p hp
    have hp₂ : p ∈ removeExpiredExternal now s.externalMetricsStore := hp
    rw [removeExpiredExternal] at hp₂
    obtain ⟨hpmem, hpdec⟩ := List.mem_filter.1 hp₂
    refine ⟨of_decide_eq_true hpdec, ?_⟩
    obtain ⟨p₀, hp₀, hpeq⟩ := List.mem_map.1 hpmem
    subst hpeq
    intro e he
    obtain ⟨hemem, hedec⟩ := List.mem_filter.1 he
    exact of_decide_eq_true hedec

/-- Witness for C4 at a concrete store: one unexpired custom entry (TTL 900)
survives a sweep at time 100 and the theorem yields its non-expiry; the
expired external entry of the same store was deleted. -/
theorem removeExpired_postcondition_witness :
    ¬ (CustomStoredMetric.mk
        (CustomMetricValue.mk "Pod" "ns1" "a" "m" 42) [] 900).ttl < 100 :=
  ((((removeExpired_postcondition 100
      (MetricStore.mk
        [("m", [(GroupResource.mk "" "pods",
          [("ns1", [("a", CustomStoredMetric.mk
            (CustomMetricValue.mk "Pod" "ns1" "a" "m" 42) [] 900)])])])]
        [("em", [("k", ExternalStoredMetric.mk
          (ExternalMetricValue.mk "em" [] 0 5) 50)])])).1
    ("m", [(GroupResource.mk "" "pods",
      [("ns1", [("a", CustomStoredMetric.mk
        (CustomMetricValue.mk "Pod" "ns1" "a" "m" 42) [] 900)])])])
    (by decide)).2
    (GroupResource.mk "" "pods",
      [("ns1", [("a", CustomStoredMetric.mk
        (CustomMetricValue.mk "Pod" "ns1" "a" "m" 42) [] 900)])])
    (by decide)).2
    ("ns1", [("a", CustomStoredMetric.mk
      (CustomMetricValue.mk "Pod" "ns1" "a" "m" 42) [] 900)])
    (by decide)).2
    ("a", CustomStoredMetric.mk
      (CustomMetricValue.mk "Pod" "ns1" "a" "m" 42) [] 900)
    (by decide)

/-! ## C5: canonical external identity -/

theorem hashLabelMap_perm {l₁ l₂ : List (String × String)} (hperm : l₁.Perm l₂) :
    hashLabelMap l₁ = hashLabelMap l₂ := by
  unfold hashLabelMap
  congr 1
  refine List.eq_of_perm_of_sorted ?_
    (List.sorted_insertionSort (· ≤ ·) _) (List.sorted_insertionSort (· ≤ ·) _)
  exact ((List.perm_insertionSort _ _).trans
    (hperm.map _)).trans (List.perm_insertionSort _ _).symm

/-- After `insertExternalMetric`, the metric-name map holds exactly one
entry under the canonical label key, namely the just-inserted value. -/
theorem insertExternal_spec (t : Int) (m : ExternalMetricValue) (s : MetricStore) :
    ∃ metrics,
      lmLookup m.metricName (s.insertExternalMetric t m).externalMetricsStore =
        some metrics ∧
      lmEntries (hashLabelMap m.metricLabels) metrics =
        [⟨m, t + storeTTLSeconds⟩] := by
  unfold MetricStore.insertExternalMetric
  rcases h : lmLookup m.metricName s.externalMetricsStore with _ | metrics
  · dsimp only
    refine ⟨_, lmLookup_insert_self _ _ _, ?_⟩
    simp [lmEntries]
  · dsimp only
    refine ⟨_, lmLookup_insert_self _ _ _, ?_⟩
    exact lmEntries_insert_self _ _ _

/-- C5: the canonical label string of a label map is its sorted, joined
`k=v` pairs, so two label maps with the same pairs in different order hash
identically, and two external inserts with the same metric name and those
two label maps write to the same entry: starting from a store not holding
that metric name, after both inserts the metric name maps to exactly the
one canonical key, holding the second value (the second insert overwrote
the first). -/
theorem insertExternal_store_new (t : Int) (m : ExternalMetricValue)
    (s : MetricStore)
    (h : lmLookup m.metricName s.externalMetricsStore = none) :
    (s.insertExternalMetric t m).externalMetricsStore =
      lmInsert m.metricName
        [(hashLabelMap m.metricLabels, ⟨m, t + storeTTLSeconds⟩)]
        s.externalMetricsStore := by
  simp only [MetricStore.insertExternalMetric, h]

theorem insertExternal_store_existing (t : Int) (m : ExternalMetricValue)
    (s : MetricStore) {metrics : List (String × ExternalStoredMetric)}
    (h : lmLookup m.metricName s.externalMetricsStore = some metrics) :
    (s.insertExternalMetric t m).externalMetricsStore =
      lmInsert m.metricName
        (lmInsert (hashLabelMap m.metricLabels) ⟨m, t + storeTTLSeconds⟩ metrics)
        s.externalMetricsStore := by
  simp only [MetricStore.insertExternalMetric, h]

theorem externalIdentity_canonical
    {l₁ l₂ : List (String × String)} {n : String} {t₁ t₂ : Int}
    {m₁ m₂ : ExternalMetricValue} {s : MetricStore}
    (hperm : l₁.Perm l₂)
    (hn : lmLookup n s.externalMetricsStore = none)
    (h₁ : m₁.metricName = n) (h₂ : m₂.metricName = n)
    (hl₁ : m₁.metricLabels = l₁) (hl₂ : m₂.metricLabels = l₂) :
    hashLabelMap l₁ = hashLabelMap l₂ ∧
    lmLookup n ((s.insertExternalMetric t₁ m₁).insertExternalMetric
        t₂ m₂).externalMetricsStore =
      some [(hashLabelMap l₁, ⟨m₂, t₂ + storeTTLSeconds⟩)] := by
  have hhash : hashLabelMap l₁ = hashLabelMap l₂ := hashLabelMap_perm hperm
  refine ⟨hhash, ?_⟩
  have hs₁ : (s.insertExternalMetric t₁ m₁).externalMetricsStore =
      lmInsert n [(hashLabelMap l₁, ⟨m₁, t₁ + storeTTLSeconds⟩)]
        s.externalMetricsStore := by
    rw [insertExternal_store_new t₁ m₁ s (by rw [h₁]; exact hn), h₁, hl₁]
  have hlook₁ : lmLookup m₂.metricName
      (s.insertExternalMetric t₁ m₁).externalMetricsStore =
      some [(hashLabelMap l₁, ⟨m₁, t₁ + storeTTLSeconds⟩)] := by
    rw [h₂, hs₁, lmLookup_insert_self]
  have hs₂ := insertExternal_store_existing t₂ m₂ _ hlook₁
  rw [hs₂, h₂, lmLookup_insert_self, hl₂, ← hhash]
  simp [lmInsert, lmEraseAll]

/-- Witness for C5: the label maps `[(b,2),(a,1)]` and `[(a,1),(b,2)]`
collide to canonical key `a=1,b=2`, and the second insert under metric name
`em` overwrites the first in the empty store. -/
theorem externalIdentity_canonical_witness :
    hashLabelMap [("b", "2"), ("a", "1")] = hashLabelMap [("a", "1"), ("b", "2")] ∧
    lmLookup "em"
      ((NewMetricStore.insertExternalMetric 0
          (ExternalMetricValue.mk "em" [("b", "2"), ("a", "1")] 0 5)).insertExternalMetric
        10 (ExternalMetricValue.mk "em" [("a", "1"), ("b", "2")] 0 9)).externalMetricsStore =
      some [(hashLabelMap [("b", "2"), ("a", "1")],
        ExternalStoredMetric.mk
          (ExternalMetricValue.mk "em" [("a", "1"), ("b", "2")] 0 9)
          (10 + storeTTLSeconds))] :=
  externalIdentity_canonical (by decide) rfl rfl rfl rfl rfl

/-! ## C6: selector queries -/

/-- C6: `GetMetricsBySelector` returns `nil` (never an error) when the
metric name or the group-resource is unknown; with namespace `""` it returns
the union over all namespaces of the stored values whose label set matches
the selector; with a non-empty namespace it returns exactly the matching
values of that namespace (empty when the namespace is absent). -/
theorem getMetricsBySelector_spec (s : MetricStore) (metricName : String)
    (groupResource : GroupResource) (namespaceName : String)
    (sel : List (String × String) → Bool) :
    (lmLookup metricName s.customMetricsStore = none →
      s.GetMetricsBySelector metricName groupResource namespaceName sel = none) ∧
    (∀ metrics, lmLookup metricName s.customMetricsStore = some metrics →
      lmLookup groupResource metrics = none →
      s.GetMetricsBySelector metricName groupResource namespaceName sel = none) ∧
    (∀ metrics group, lmLookup metricName s.customMetricsStore = some metrics →
      lmLookup groupResource metrics = some group →
      ((namespaceName = "" →
        ∃ items, s.GetMetricsBySelector metricName groupResource namespaceName sel
            = some items ∧
          ∀ x, x ∈ items ↔ ∃ p ∈ group, ∃ q ∈ p.2,
            sel q.2.labels = true ∧ q.2.value = x) ∧
       (namespaceName ≠ "" →
        ∃ items, s.GetMetricsBySelector metricName groupResource namespaceName sel
            = some items ∧
          ∀ x, x ∈ items ↔ ∃ nsmap, lmLookup namespaceName group = some nsmap ∧
            ∃ q ∈ nsmap, sel q.2.labels = true ∧ q.2.value = x))) := by
  refine ⟨?_, ?_, ?_⟩
  · intro h
    unfold MetricStore.GetMetricsBySelector
    simp only [h]
  · intro metrics hm hg
    unfold MetricStore.GetMetricsBySelector
    simp only [hm, hg]
  · intro metrics group hm hg
    constructor
    · intro hns
      subst hns
      unfold MetricStore.GetMetricsBySelector
      simp only [hm, hg, if_true]
      refine ⟨_, rfl, ?_⟩
      intro x
      simp only [List.mem_flatMap, selectorScan, List.mem_filterMap]
      constructor
      · rintro ⟨p, hp, q, hq, hsome⟩
        by_cases hc : sel q.2.labels
        · rw [if_pos hc] at hsome
          exact ⟨p, hp, q, hq, hc, by simpa using hsome⟩
        · rw [if_neg hc] at hsome
          simp at hsome
      · rintro ⟨p, hp, q, hq, hc, hval⟩
        exact ⟨p, hp, q, hq, by rw [if_pos hc, hval]⟩
    · intro hns
      unfold MetricStore.GetMetricsBySelector
      simp only [hm, hg]
      rw [if_neg hns]
      rcases hlook : lmLookup namespaceName group with _ | nsmap
      · refine ⟨[], rfl, ?_⟩
        intro x
        simp
      · refine ⟨_, rfl, ?_⟩
        intro x
        simp only [selectorScan, List.mem_filterMap, Option.some.injEq]
        constructor
        · rintro ⟨q, hq, hsome⟩
          by_cases hc : sel q.2.labels
          · rw [if_pos hc] at hsome
            exact ⟨nsmap, rfl, q, hq, hc, by simpa using hsome⟩
          · rw [if_neg hc] at hsome
            simp at hsome
        · rintro ⟨nsmap₂, hmap, q, hq, hc, hval⟩
          obtain rfl : nsmap = nsmap₂ := by simpa using hmap
          exact ⟨q, hq, by rw [if_pos hc, hval]⟩

/-- Witness for C6: a selector query for an unknown metric name on the empty
store returns `nil` rather than an error. -/
theorem getMetricsBySelector_spec_witness :
    MetricStore.GetMetricsBySelector NewMetricStore "unknown"
      (GroupResource.mk "" "pods") "" (fun _ => true) = none :=
  (getMetricsBySelector_spec NewMetricStore "unknown"
    (GroupResource.mk "" "pods") "" (fun _ => true)).1 rfl

/-! ## Collector embedding (Skipper ingress collector, maximum-of combinator,
ZMON check collector) -/

/-- `MetricConfig` (the fields used by these collectors): metric name,
source type, target object reference, backend config map, label map and the
per-replica flag. -/
structure MetricConfig where
  name : String
  sourceType : MetricSourceType
  objectNamespace : String
  objectName : String
  config : List (String × String)
  labels : List (String × String)
  perReplica : Bool
deriving DecidableEq, Repr

/-- A symbolic collector value: either a delegate built by the plugin from a
config (the prometheus sub-collector in the source), or the maximum-of
combinator over sub-collectors. -/
inductive CollectorTree where
  | delegate (config : MetricConfig)
  | maxOf (interval : Int) (subs : List CollectorTree)
deriving Repr

/-- `NewMaxCollector(interval, collectors...)`. -/
def NewMaxCollector (interval : Int) (collectors : List CollectorTree) :
    CollectorTree :=
  CollectorTree.maxOf interval collectors

/-- `fmt.Sprintf(rpsQuery, host)` where `rpsQuery` is the constant
`scalar(sum(rate(skipper_serve_host_duration_seconds_count\x7bhost="%s"\x7d[1m])))`. -/
def rpsQueryFor (host : String) : String :=
  "scalar(sum(rate(skipper_serve_host_duration_seconds_count\x7bhost=\"" ++ host ++
    "\"\x7d[1m])))"

/-- The loop body of `SkipperCollector.getCollector`: one delegate
sub-collector per ingress rule, with the rule's host sanitized
(`strings.Replace(rule.Host, ".", "_", -1)`) into the query config and the
delegate's own per-replica averaging disabled; a plugin error aborts the
construction. -/
def buildCollectors (cfg : MetricConfig) (interval : Int)
    (plugin : MetricConfig → Int → Except String CollectorTree) :
    List String → Except String (List CollectorTree)
  | [] => .ok []
  | rule :: rest =>
    let host := rule.replace "." "_"
    let cfg₂ := { cfg with config := [("query", rpsQueryFor host)],
                           perReplica := false }
    match plugin cfg₂ interval with
    | .error e => .error e
    | .ok c =>
      match buildCollectors cfg interval plugin rest with
      | .error e => .error e
      | .ok cs => .ok (c :: cs)

/-- `SkipperCollector.getCollector`. The ingress fetch is modelled by its
result (the list of rule hosts, or the fetch error); the delegate plugin function
`NewCollector` is modelled as a function of the config and interval. -/
def getCollector (ingressResult : Except String (List String))
    (cfg : MetricConfig) (interval : Int)
    (plugin : MetricConfig → Int → Except String CollectorTree) :
    Except String CollectorTree :=
  match ingressResult with
  | .error e => .error e
  | .ok rules =>
    match buildCollectors cfg interval plugin rules with
    | .error e => .error e
    | .ok collectors =>
      if collectors.length > 1 then .ok (NewMaxCollector interval collectors)
      else
        match collectors with
        | [c] => .ok c
        | _ => .error ("no hosts defined on ingress " ++ cfg.objectNamespace ++
            "/" ++ cfg.objectName ++ ", unable to create collector")

/-- `targetRefReplicas`: ready replicas of the scale target; the two cluster
API reads are modelled by their results. An unsupported target kind leaves
`replicas` at its zero value and returns it with no error. -/
def targetRefReplicas (kind : String)
    (deploymentReadyReplicas : Except String Int)
    (statefulSetReadyReplicas : Except String Int) : Except String Int :=
  match kind with
  | "Deployment" =>
    match deploymentReadyReplicas with
    | .error e => .error e
    | .ok n => .ok n
  | "StatefulSet" =>
    match statefulSetReadyReplicas with
    | .error e => .error e
    | .ok n => .ok n
  | _ => .ok 0

/-- `SkipperCollector.GetMetrics`, as a function of the delegate collector's
result and of the replica lookup's result. The Go average
`int64(float64(value.Custom.Value.MilliValue()) / float64(replicas))` is
modelled as truncated integer division on the milli-unit quantity, which
agrees with the float computation whenever the float quotient is exactly
representable (in particular at the claims' concrete instances). -/
def skipperGetMetrics (collectorResult : Except String (List CollectedMetric))
    (replicasResult : Except String Int) :
    Except String (List CollectedMetric) :=
  match collectorResult with
  | .error e => .error e
  | .ok values =>
    match values with
    | [value] =>
      match replicasResult with
      | .error e => .error e
      | .ok replicas =>
        if replicas < 1 then
          .error ("unable to get average value for " ++ toString replicas ++
            " replicas")
        else
          let avgValue := value.custom.value.tdiv replicas
          .ok [{ value with custom := { value.custom with value := avgValue } }]
    | _ => .error ("expected to only get one metric value, got " ++
        toString values.length)

theorem buildCollectors_ok (cfg : MetricConfig) (interval : Int)
    (rules : List String) :
    buildCollectors cfg interval (fun c _ => .ok (.delegate c)) rules =
      .ok (rules.map (fun r => CollectorTree.delegate { cfg with
        config := [("query", rpsQueryFor (r.replace "." "_"))],
        perReplica := false })) := by
  induction rules with
  | nil => rfl
  | cons r rest ih =>
    simp only [buildCollectors, ih, List.map_cons]

/-- C8: per-host fan-out of `SkipperCollector.getCollector`. With a plugin
that succeeds on every config, an ingress with rules `r :: rules` yields one
delegate per host, its query built from the host with `.` replaced by `_`
and with per-replica averaging disabled; a single host is used directly,
more than one host is wrapped in the maximum-of combinator, and zero hosts
fail with the "no hosts defined" error. -/
theorem skipper_getCollector_fanout (cfg : MetricConfig) (interval : Int) :
    (∀ r rules,
      getCollector (.ok (r :: rules)) cfg interval
          (fun c _ => .ok (.delegate c)) =
        if rules = [] then
          .ok (.delegate { cfg with
            config := [("query", rpsQueryFor (r.replace "." "_"))],
            perReplica := false })
        else
          .ok (NewMaxCollector interval ((r :: rules).map (fun h =>
            CollectorTree.delegate { cfg with
              config := [("query", rpsQueryFor (h.replace "." "_"))],
              perReplica := false })))) ∧
    getCollector (.ok []) cfg interval (fun c _ => .ok (.delegate c)) =
      .error ("no hosts defined on ingress " ++ cfg.objectNamespace ++ "/" ++
        cfg.objectName ++ ", unable to create collector") := by
  constructor
  · intro r rules
    cases rules with
    | nil =>
      simp [getCollector, buildCollectors_ok, NewMaxCollector]
    | cons r₂ rest =>
      simp [getCollector, buildCollectors_ok, NewMaxCollector]
  · rfl

/-- Witness for C8: two hosts produce the maximum-of combinator over two
sanitized delegates; the config is concrete. -/
theorem skipper_getCollector_fanout_witness :
    getCollector (.ok ["a.example.org", "b.example.org"])
        (MetricConfig.mk "requests-per-second" MetricSourceType.object "ns1"
          "ing" [] [] true) 30 (fun c _ => .ok (.delegate c)) =
      .ok (NewMaxCollector 30 (["a.example.org", "b.example.org"].map (fun h =>
        CollectorTree.delegate { MetricConfig.mk "requests-per-second"
            MetricSourceType.object "ns1" "ing" [] [] true with
          config := [("query", rpsQueryFor (h.replace "." "_"))],
          perReplica := false }))) := by
  have h := (skipper_getCollector_fanout
    (MetricConfig.mk "requests-per-second" MetricSourceType.object "ns1"
      "ing" [] [] true) 30).1 "a.example.org" ["b.example.org"]
  rw [if_neg (by simp)] at h
  exact h

/-- C7: per-replica averaging of `SkipperCollector.GetMetrics`. A single
collected value with milli-quantity 900 and 3 live ready replicas yields
300; any replica count below 1 fails with the explicit "unable to get
average value" error instead of dividing; and an unsupported target kind
makes `targetRefReplicas` return 0, so the collector fails with that error
for 0 replicas. -/
theorem skipper_perReplica_average :
    (∀ v : CollectedMetric, v.custom.value = 900 →
      skipperGetMetrics (.ok [v]) (.ok 3) =
        .ok [{ v with custom := { v.custom with value := 300 } }]) ∧
    (∀ (v : CollectedMetric) (r : Int), r < 1 →
      skipperGetMetrics (.ok [v]) (.ok r) =
        .error ("unable to get average value for " ++ toString r ++
          " replicas")) ∧
    (∀ (kind : String) (dep sts : Except String Int),
      kind ≠ "Deployment" → kind ≠ "StatefulSet" →
      targetRefReplicas kind dep sts = .ok 0 ∧
      ∀ v : CollectedMetric,
        skipperGetMetrics (.ok [v]) (targetRefReplicas kind dep sts) =
          .error "unable to get average value for 0 replicas") := by
  refine ⟨?_, ?_, ?_⟩
  · intro v hv
    simp only [skipperGetMetrics]
    rw [if_neg (by decide : ¬ (3 : Int) < 1)]
    rw [hv]
    rw [show Int.tdiv 900 3 = 300 from by decide]
  · intro v r hr
    simp only [skipperGetMetrics]
    rw [if_pos hr]
  · intro kind dep sts h₁ h₂
    have h0 : targetRefReplicas kind dep sts = .ok 0 := by
      unfold targetRefReplicas
      split
      case h_1 => exact absurd rfl h₁
      case h_2 => exact absurd rfl h₂
      case h_3 => rfl
    refine ⟨h0, ?_⟩
    intro v
    rw [h0]
    simp only [skipperGetMetrics]
    rw [if_pos (by decide : (0 : Int) < 1)]
    rfl

/-- Witness for C7: the concrete value 900 averaged over 3 replicas is 300,
and replica count 0 yields the explicit error. -/
theorem skipper_perReplica_average_witness :
    skipperGetMetrics
        (.ok [CollectedMetric.mk MetricSourceType.object
          (CustomMetricValue.mk "Pod" "ns1" "a" "requests-per-second" 900)
          (ExternalMetricValue.mk "" [] 0 0) []]) (.ok 3) =
      .ok [CollectedMetric.mk MetricSourceType.object
        (CustomMetricValue.mk "Pod" "ns1" "a" "requests-per-second" 300)
        (ExternalMetricValue.mk "" [] 0 0) []] :=
  skipper_perReplica_average.1 _ rfl

/-! ## C9: maximum-of combinator (spec-modelled) -/

/-- Modelled from the spec: the value collection step of the maximum-of
combinator (`MaxCollector.GetMetrics`), whose implementation is not among
the provided sources (only its `NewMaxCollector` call site is). Each
delegate is modelled by its `GetMetrics` result; delegates are invoked in
order and an error from any delegate propagates immediately, with no
partial aggregation (spec §4.3: fail-fast). -/
def collectValues :
    List (Except String (List CollectedMetric)) →
      Except String (List CollectedMetric)
  | [] => .ok []
  | .error e :: _ => .error e
  | .ok vs :: rest =>
    match collectValues rest with
    | .error e => .error e
    | .ok acc => .ok (vs ++ acc)

/-- Modelled from the spec: `MaxCollector.GetMetrics` (spec §4.3). Fails if
zero delegates were configured or no delegate returned a value; otherwise
returns the single value with the largest numeric quantity (the custom
milli-quantity, which is what the enclosing Skipper collector averages),
keeping the first-encountered maximum in delegate order on ties. -/
def maxGetMetrics (results : List (Except String (List CollectedMetric))) :
    Except String (List CollectedMetric) :=
  match results with
  | [] => .error "no collectors configured"
  | _ =>
    match collectValues results with
    | .error e => .error e
    | .ok [] => .error "no metrics collected"
    | .ok (v :: rest) =>
      .ok [rest.foldl
        (fun best c => if best.custom.value < c.custom.value then c else best) v]

theorem collectValues_error {pre post : List (Except String (List CollectedMetric))}
    {e : String} (hpre : ∀ r ∈ pre, ∃ vs, r = .ok vs) :
    collectValues (pre ++ .error e :: post) = .error e := by
  induction pre with
  | nil => rfl
  | cons r rest ih =>
    obtain ⟨vs, hvs⟩ := hpre r (List.mem_cons_self _ _)
    subst hvs
    rw [List.cons_append, collectValues,
      ih (fun q hq => hpre q (List.mem_cons_of_mem _ hq))]

theorem collectValues_empty {rs : List (Except String (List CollectedMetric))}
    (h : ∀ r ∈ rs, r = .ok []) : collectValues rs = .ok [] := by
  induction rs with
  | nil => rfl
  | cons r rest ih =>
    have hr := h r (List.mem_cons_self _ _)
    subst hr
    rw [collectValues, ih (fun q hq => h q (List.mem_cons_of_mem _ hq))]
    rfl

/-- C9: maximum-of combinator semantics. Delegates returning quantities
`[3, 7, 5]` yield the 7-value; on the tie `[7, 7, 3]` the first 7 in
delegate order is returned; an error from a delegate (all earlier delegates
succeeding) propagates as the result with no partial aggregation; zero
configured delegates fail, and delegates returning no values fail. -/
theorem maxCollector_semantics :
    (∀ a b c : CollectedMetric, a.custom.value = 3 → b.custom.value = 7 →
      c.custom.value = 5 →
      maxGetMetrics [.ok [a], .ok [b], .ok [c]] = .ok [b]) ∧
    (∀ a b c : CollectedMetric, a.custom.value = 7 → b.custom.value = 7 →
      c.custom.value = 3 →
      maxGetMetrics [.ok [a], .ok [b], .ok [c]] = .ok [a]) ∧
    (∀ (pre post : List (Except String (List CollectedMetric))) (e : String),
      (∀ r ∈ pre, ∃ vs, r = .ok vs) →
      maxGetMetrics (pre ++ .error e :: post) = .error e) ∧
    maxGetMetrics [] = .error "no collectors configured" ∧
    (∀ rs, rs ≠ [] → (∀ r ∈ rs, r = .ok []) →
      maxGetMetrics rs = .error "no metrics collected") := by
  refine ⟨?_, ?_, ?_, rfl, ?_⟩
  · intro a b c ha hb hc
    simp [maxGetMetrics, collectValues, List.foldl, ha, hb, hc]
  · intro a b c ha hb hc
    simp [maxGetMetrics, collectValues, List.foldl, ha, hb, hc]
  · intro pre post e hpre
    have hne : pre ++ .error e :: post ≠ [] := by
      cases pre <;> simp
    unfold maxGetMetrics
    split
    · simp_all
    · rw [collectValues_error hpre]
  · intro rs hne h
    unfold maxGetMetrics
    split
    · exact absurd rfl hne
    · rw [collectValues_empty h]

/-- Witness for C9 at concrete values: delegates returning 3, 7 and 5 yield
the 7-value. -/
theorem maxCollector_semantics_witness :
    maxGetMetrics
        [.ok [CollectedMetric.mk MetricSourceType.object
          (CustomMetricValue.mk "Pod" "ns1" "a" "rps" 3)
          (ExternalMetricValue.mk "" [] 0 0) []],
         .ok [CollectedMetric.mk MetricSourceType.object
          (CustomMetricValue.mk "Pod" "ns1" "b" "rps" 7)
          (ExternalMetricValue.mk "" [] 0 0) []],
         .ok [CollectedMetric.mk MetricSourceType.object
          (CustomMetricValue.mk "Pod" "ns1" "c" "rps" 5)
          (ExternalMetricValue.mk "" [] 0 0) []]] =
      .ok [CollectedMetric.mk MetricSourceType.object
        (CustomMetricValue.mk "Pod" "ns1" "b" "rps" 7)
        (ExternalMetricValue.mk "" [] 0 0) []] :=
  maxCollector_semantics.1 _ _ _ rfl rfl rfl

/-! ## C10: ZMON check collector -/

/-- `ZMONCollector` (the fields of the source struct, with the endpoint and
token source reduced to the endpoint string; neither is read by
`GetMetrics`). -/
structure ZMONCollector where
  endpoint : String
  interval : Int
  checkID : String
  query : String
  labels : List (String × String)
  metricName : String
  metricType : MetricSourceType
deriving DecidableEq, Repr

/-- `ZMONCollector.GetMetrics`: unconditionally returns one collected
metric whose external value carries the configured name and labels, the
current time, and the constant quantity 0 — no backend query is made. -/
def ZMONCollector.GetMetrics (c : ZMONCollector) (now : Int) :
    Except String (List CollectedMetric) :=
  .ok [{ sourceType := c.metricType,
         custom := ⟨"", "", "", "", 0⟩,
         external := ⟨c.metricName, c.labels, now, 0⟩,
         labels := [] }]

/-- C10: every call to the ZMON collector's `GetMetrics` succeeds with
exactly one external value of quantity 0, carrying the configured metric
name and label map and the current timestamp; the result is independent of
the configured check id, query and endpoint. -/
theorem zmon_getMetrics_constant_zero :
    (∀ (c : ZMONCollector) (now : Int),
      c.GetMetrics now = .ok [⟨c.metricType, ⟨"", "", "", "", 0⟩,
        ⟨c.metricName, c.labels, now, 0⟩, []⟩]) ∧
    (∀ (c₁ c₂ : ZMONCollector) (now : Int),
      c₁.metricName = c₂.metricName → c₁.labels = c₂.labels →
      c₁.metricType = c₂.metricType →
      c₁.GetMetrics now = c₂.GetMetrics now) := by
  constructor
  · intro c now
    rfl
  · intro c₁ c₂ now hn hl ht
    simp [ZMONCollector.GetMetrics, hn, hl, ht]

/-- Witness for C10: two collectors differing only in check id, query and
endpoint produce identical results. -/
theorem zmon_getMetrics_constant_zero_witness :
    (ZMONCollector.mk "https://zmon-a" 60 "check-1" "q1" [("k", "v")]
      "zmon-check" MetricSourceType.external).GetMetrics 5 =
    (ZMONCollector.mk "https://zmon-b" 60 "check-2" "q2" [("k", "v")]
      "zmon-check" MetricSourceType.external).GetMetrics 5 :=
  zmon_getMetrics_constant_zero.2 _ _ 5 rfl rfl rfl

end KubeMetricsAdapter
